import Mathlib

/-!
Verification development for the `dgruber/clusterstatus` multi-cluster job
broker.  The Go sources are embedded shallowly:

* machine strings are `List Char` (`GoStr`),
* `float64` arithmetic is modelled exactly over `ℚ`,
* Go's `int64(x)` conversion of a float is truncation toward zero,
* HTTP / JSON side effects are passed in as explicit outcome oracles,
* `math/rand.Int63n` is an oracle guarded by its documented panic
  condition (`n <= 0` panics, modelled as `Except.error`),
* the concurrent environment-overlay window of
  `simpletracker.StartProcess` is modelled as a small-step transition
  system over two in-flight invocations.
-/

namespace ClusterStatus

/-! ## Definitions: shallow embedding of the scheduler, the inception
aggregator, and the StartProcess overlay window -/

/-- Go strings, modelled as their character lists. -/
abbrev GoStr := List Char

/-- One `Cluster` record of the `uc` configuration
(`{name, address, protocolVersion}`). -/
structure ClusterConfig where
  Name : GoStr
  Address : GoStr
  ProtocolVersion : GoStr
deriving DecidableEq, Repr

/-- The `uc` configuration object: the ordered list of configured clusters. -/
structure Config where
  Cluster : List ClusterConfig
deriving DecidableEq, Repr

/-- Outcome of one cluster-load fetch in `getClusterLoad`: either the HTTP
request errors, or it succeeds and the JSON decode of the body into the
zero-initialized `var load float64` fails (leaving the variable at `0.0`),
or the decode succeeds with value `v`. -/
inductive FetchOutcome where
  | httpError : FetchOutcome
  | httpOkDecodeErr : FetchOutcome
  | httpOkDecodeOk (v : ℚ) : FetchOutcome
deriving DecidableEq, Repr

/-- Function `getClusterLoad` (scheduler.go:142-154): the effect of one goroutine on
slot `index` of the shared load slice.  The Go code stores the decode
target `load` when `decoder.Decode(&load)` returns a NON-nil error (the
variable still holds its zero value `0.0` then), and merely logs in the
`else` (decode succeeded) branch, so a successfully decoded value is never
stored. -/
def getClusterLoad (load : List ℚ) (index : ℕ) (outcome : FetchOutcome) : List ℚ :=
  match outcome with
  | .httpError => load
  | .httpOkDecodeErr => load.set index 0
  | .httpOkDecodeOk _ => load

/-- Function `getAllLoadValues` (scheduler.go:156-167): a zero-initialized slice with
one slot per configured cluster, one fetch goroutine per cluster, joined by
the wait group.  `outcomes i` is the fetch outcome of cluster `i`. -/
def getAllLoadValues (conf : Config) (outcomes : ℕ → FetchOutcome) : List ℚ :=
  (List.range conf.Cluster.length).foldl
    (fun load i => getClusterLoad load i (outcomes i))
    (List.replicate conf.Cluster.length 0)

/-- Go's `int64(x)` conversion of a `float64`: truncation toward zero. -/
def i64trunc (q : ℚ) : ℤ :=
  if 0 ≤ q then ⌊q⌋ else ⌈q⌉

/-- The incremental weight `int64((1.0 - v) * 10000)` of one cluster in
`probabilisticSelection`. -/
def weightOfLoad (v : ℚ) : ℤ :=
  i64trunc ((1 - v) * 10000)

/-- The `likelyhood` array of `probabilisticSelection`
(scheduler.go:114-121): running sums of the incremental weights. -/
def likelyhoodList (loads : List ℚ) : List ℤ :=
  (loads.foldl (fun acc v =>
      match acc with
      | [] => [weightOfLoad v]
      | w :: ws => (w + weightOfLoad v) :: w :: ws) []).reverse

/-- Entry `likelyhood[len(loads)-1]`: the total weight checked against `0`. -/
def totalWeight (loads : List ℚ) : ℤ :=
  (likelyhoodList loads).getLastD 0

/-- Function `math/rand.Int63n(n)`: panics when `n <= 0`, otherwise returns the
oracle's draw, which the library guarantees to lie in `[0, n)`. -/
def int63n (rng : ℤ → ℤ) (n : ℤ) : Except GoStr ℤ :=
  if n ≤ 0 then .error "invalid argument to Int63n".toList else .ok (rng n)

/-- A faithful random oracle: `rand.Int63n n` returns a value in `[0, n)`
whenever `n > 0`. -/
def ValidRng (rng : ℤ → ℤ) : Prop :=
  ∀ n : ℤ, 0 < n → 0 ≤ rng n ∧ rng n < n

/-- The final scan of `probabilisticSelection` (scheduler.go:128-132):
the first position (as a Go `int`, `-1` if none) whose cumulative weight
strictly exceeds the drawn value. -/
def firstExceedingFrom (lk : List ℤ) (selection : ℤ) (k : ℕ) : ℤ :=
  match lk with
  | [] => -1
  | v :: rest => if selection < v then (k : ℤ) else firstExceedingFrom rest selection (k + 1)

/-- Function `probabilisticSelection` (scheduler.go:106-134).  The `Except` layer
records the panic of `rand.Int63n` when its argument
`likelyhood[len(loads)-1] - 1` is not positive. -/
def probabilisticSelection (loads : List ℚ) (rng : ℤ → ℤ) : Except GoStr ℤ :=
  if loads.length ≤ 0 then .ok (-1)
  else if (likelyhoodList loads).getLastD 0 ≤ 0 then .ok (-1)
  else
    int63n rng ((likelyhoodList loads).getLastD 0 - 1) >>= fun selection =>
      .ok (firstExceedingFrom (likelyhoodList loads) selection 0)

/-- Method `ProbSched.SelectCluster` (scheduler.go:94-104), factored over the load
vector obtained from `getAllLoadValues`: a non-negative selection indexes
the configured cluster list, otherwise the literal name `"default"` is
returned.  A panic of the selection propagates. -/
def probSchedSelect (conf : Config) (loads : List ℚ) (rng : ℤ → ℤ) : Except GoStr GoStr :=
  match probabilisticSelection loads rng with
  | .error e => .error e
  | .ok selection =>
      if 0 ≤ selection then
        .ok (((conf.Cluster.get? selection.toNat).map ClusterConfig.Name).getD [])
      else
        .ok "default".toList

/-- The spec's weight formula, for comparison with `weightOfLoad`:
`round((1 - load_k) * 10000)`. -/
def specRoundWeight (v : ℚ) : ℤ :=
  round ((1 - v) * 10000 : ℚ)

/-- Constant `math.MaxFloat64`, the initial minimum of `minLoad`, as an exact
rational: `(2 - 2^-52) * 2^1023`. -/
def maxFloat64 : ℚ :=
  (2 ^ 1024 - 2 ^ 971 : ℚ)

/-- The loop of `minLoad` (scheduler.go:169-179): `k` is the position of
the head of `load`, `min`/`index` are the accumulator variables. -/
def minLoadFrom (load : List ℚ) (k : ℕ) (min : ℚ) (index : ℕ) : ℕ :=
  match load with
  | [] => index
  | v :: rest =>
      if v < min then minLoadFrom rest (k + 1) v k
      else minLoadFrom rest (k + 1) min index

/-- Function `minLoad` (scheduler.go:169-179): index of the smallest load, starting
from `min = math.MaxFloat64`, `index = 0`. -/
def minLoad (load : List ℚ) : ℕ :=
  minLoadFrom load 0 maxFloat64 0

/-- Method `LoadBasedSched.SelectCluster` (scheduler.go:186-192), factored over
the load vector obtained from `getAllLoadValues`. -/
def loadBasedSelect (conf : Config) (loads : List ℚ) : Option GoStr :=
  (conf.Cluster.get? (minLoad loads)).map ClusterConfig.Name

/-- The running-sum list the `likelyhood` loop computes, in direct
structural form: `cumsFrom loads acc` prefixes every running sum with
`acc`. -/
def cumsFrom (loads : List ℚ) (acc : ℤ) : List ℤ :=
  match loads with
  | [] => []
  | v :: rest => (acc + weightOfLoad v) :: cumsFrom rest (acc + weightOfLoad v)

/-- A one-cluster configuration. -/
def confC1 : Config :=
  ⟨[⟨"clusterA".toList, "http://localhost:8282".toList, "v1".toList⟩]⟩

/-- A three-cluster configuration with names `a`, `b`, `c`. -/
def confABC : Config :=
  ⟨[⟨"a".toList, "http://hosta:8282".toList, "v1".toList⟩,
    ⟨"b".toList, "http://hostb:8282".toList, "v1".toList⟩,
    ⟨"c".toList, "http://hostc:8282".toList, "v1".toList⟩]⟩

/-- A DRMAA2 job snapshot as carried over the broker wire
(`pkg/types.JobInfo`); the aggregation claims depend only on its identity,
so only the routing-relevant fields are carried. -/
structure JobInfo where
  Id : GoStr
  State : GoStr
deriving DecidableEq, Repr

/-- A compute host record (`pkg/types.Machine`). -/
structure Machine where
  Name : GoStr
deriving DecidableEq, Repr

/-- A queue record (`pkg/types.Queue`). -/
structure Queue where
  Name : GoStr
deriving DecidableEq, Repr

/-- A job submission template (`pkg/types.JobTemplate`); only the fields
the aggregator claims touch are carried. -/
structure JobTemplate where
  RemoteCommand : GoStr
  Args : List GoStr
deriving DecidableEq, Repr

/-- The `Inception` struct (part_003:32-36): the proxy's own address, the
configuration, and (elided) the HTTP request handle. -/
structure Inception where
  inceptionAddress : GoStr
  config : Config
deriving DecidableEq, Repr

/-- Function `NewInception` (part_003:38-43): the struct literal assigns
only `config` and `request`; `inceptionAddress` is left at the Go string
zero value `""`. -/
def NewInception (certFile keyFile otp : GoStr) (config : Config) : Inception :=
  { inceptionAddress := [], config := config }

/-- The self-reference guard used by every fan-out loop (part_003:74, 137,
165, 196): `fmt.Sprintf("%s/", c.Address) == i.inceptionAddress`, i.e. the
configured address with `"/"` appended is string-compared against the
instance's `inceptionAddress` field. -/
def isOwnAddress (i : Inception) (c : ClusterConfig) : Prop :=
  c.Address ++ "/".toList = i.inceptionAddress

instance (i : Inception) (c : ClusterConfig) : Decidable (isOwnAddress i c) := by
  unfold isOwnAddress
  infer_instance

/-- The clusters a fan-out loop actually requests: every configured
cluster except those skipped by the self-reference guard. -/
def requestedClusters (i : Inception) : List ClusterConfig :=
  i.config.Cluster.filter (fun c => !(decide (isOwnAddress i c)))

/-- Function `requestJobInfos` (part_003:56-66): one fan-out goroutine;
`GetJobs(address, state, "")` returns `nil` on failure (modelled `none`),
in which case nothing is appended to the shared job-info slice. -/
def requestJobInfos (getJobs : GoStr → GoStr → GoStr → Option (List JobInfo))
    (jobinfos : List JobInfo) (state : GoStr) (address : GoStr) : List JobInfo :=
  match getJobs address state [] with
  | none => jobinfos
  | some jis => jobinfos ++ jis

/-- Method `Inception.GetJobInfosByFilter` (part_003:68-85): fans out
`GetJobs(addr ++ "/v1", "all", "")` to every configured cluster that does
not trip the self-guard, joins, and returns the accumulated slice.  The
`filtered`/`filter` arguments appear exactly as in the source signature. -/
def GetJobInfosByFilter (i : Inception)
    (getJobs : GoStr → GoStr → GoStr → Option (List JobInfo))
    (filtered : Bool) (filter : JobInfo) : List JobInfo :=
  (requestedClusters i).foldl
    (fun jobinfos c =>
      requestJobInfos getJobs jobinfos "all".toList (c.Address ++ "/v1".toList))
    []

/-- The request addresses dispatched by the `GetJobInfosByFilter` loop:
`fmt.Sprintf("%s/v1", c.Address)` for every non-skipped cluster. -/
def jobInfoRequests (i : Inception) : List GoStr :=
  (requestedClusters i).map (fun c => c.Address ++ "/v1".toList)

/-- Modelled from the spec: `GetClusterAddress` lives in the `uc`
configuration collaborator, whose source file is not under `src/`; per §6
the configuration supplies the ordered `{name, address, protocolVersion}`
records, so the lookup resolves a cluster name to the address (and
protocol version) of the first configured cluster with that name and
errors when the name is not configured. -/
def GetClusterAddress (conf : Config) (name : GoStr) : Except GoStr (GoStr × GoStr) :=
  match conf.Cluster.find? (fun c => c.Name = name) with
  | some c => .ok (c.Address, c.ProtocolVersion)
  | none => .error ("Cluster name not found: ".toList ++ name)

/-- The loop of `Inception.GetAllMachines` (part_003:132-155): skip the
self-guarded cluster, resolve the address (a resolution error panics and
escalates), fetch machines with `GetMachines(address, "all")`, exclude a
failed fetch, append a successful one. -/
def getAllMachinesLoop (i : Inception)
    (getMachines : GoStr → GoStr → Option (List Machine)) :
    List ClusterConfig → List Machine → Except GoStr (List Machine)
  | [], allmachines => .ok allmachines
  | c :: rest, allmachines =>
      if isOwnAddress i c then getAllMachinesLoop i getMachines rest allmachines
      else
        match GetClusterAddress i.config c.Name with
        | .error e => .error e
        | .ok (address, _) =>
            match getMachines address "all".toList with
            | some ms => getAllMachinesLoop i getMachines rest (allmachines ++ ms)
            | none => getAllMachinesLoop i getMachines rest allmachines

/-- Method `Inception.GetAllMachines` (part_003:132-155). -/
def GetAllMachines (i : Inception)
    (getMachines : GoStr → GoStr → Option (List Machine))
    (machines : List GoStr) : Except GoStr (List Machine) :=
  getAllMachinesLoop i getMachines i.config.Cluster []

/-- The loop of `Inception.GetAllQueues` (part_003:159-183), structurally
identical to the machines loop with `GetQueues(address, "all")`. -/
def getAllQueuesLoop (i : Inception)
    (getQueues : GoStr → GoStr → Option (List Queue)) :
    List ClusterConfig → List Queue → Except GoStr (List Queue)
  | [], allqueues => .ok allqueues
  | c :: rest, allqueues =>
      if isOwnAddress i c then getAllQueuesLoop i getQueues rest allqueues
      else
        match GetClusterAddress i.config c.Name with
        | .error e => .error e
        | .ok (address, _) =>
            match getQueues address "all".toList with
            | some qs => getAllQueuesLoop i getQueues rest (allqueues ++ qs)
            | none => getAllQueuesLoop i getQueues rest allqueues

/-- Method `Inception.GetAllQueues` (part_003:159-183). -/
def GetAllQueues (i : Inception)
    (getQueues : GoStr → GoStr → Option (List Queue))
    (queues : List GoStr) : Except GoStr (List Queue) :=
  getAllQueuesLoop i getQueues i.config.Cluster []

/-- The loop of `Inception.GetAllCategories` (part_003:192-208):
`GetJobCategories(address, "ubercluster", "all")` returns a bare slice
(`nil`, i.e. `none`, when the peer fails), appended with `...`, so a
failed peer contributes nothing. -/
def getAllCategoriesLoop (i : Inception)
    (getJobCategories : GoStr → GoStr → GoStr → Option (List GoStr)) :
    List ClusterConfig → List GoStr → Except GoStr (List GoStr)
  | [], cat => .ok cat
  | c :: rest, cat =>
      if isOwnAddress i c then getAllCategoriesLoop i getJobCategories rest cat
      else
        match GetClusterAddress i.config c.Name with
        | .error e => .error e
        | .ok (address, _) =>
            match getJobCategories address "ubercluster".toList "all".toList with
            | some cs => getAllCategoriesLoop i getJobCategories rest (cat ++ cs)
            | none => getAllCategoriesLoop i getJobCategories rest cat

/-- Method `Inception.GetAllCategories` (part_003:192-208). -/
def GetAllCategories (i : Inception)
    (getJobCategories : GoStr → GoStr → GoStr → Option (List GoStr)) :
    Except GoStr (List GoStr) :=
  getAllCategoriesLoop i getJobCategories i.config.Cluster []

/-- Method `Inception.RunJob` (part_003:222-224): an unimplemented stub
returning the zero-value job identifier `""` together with a `nil` error
(modelled as `none`). -/
def RunJob (i : Inception) (template : JobTemplate) : GoStr × Option GoStr :=
  ([], none)

/-- Method `Inception.JobOperation` (part_003:226-228): an unimplemented
stub returning `("", nil)`. -/
def JobOperation (i : Inception) (jobsessionname operation jobid : GoStr) :
    GoStr × Option GoStr :=
  ([], none)

/-- Go's `strings.Split(s, sep)` for a one-character separator: splits at
every occurrence, keeping empty fields; `Split("", sep) = [""]`. -/
def goSplit (sep : Char) : GoStr → List GoStr
  | [] => [[]]
  | c :: rest =>
      if c = sep then [] :: goSplit sep rest
      else
        match goSplit sep rest with
        | [] => [[c]]
        | s :: ss => (c :: s) :: ss

/-- Function `getJobFromCluster` (part_003:87-110): resolve the cluster
name against the configuration (first match wins, with `address != ""`
gating the request), then fetch `GetJob(address ++ version, jobid)`. -/
def getJobFromCluster (i : Inception)
    (getJob : GoStr → GoStr → Except GoStr JobInfo)
    (clustername jobid : GoStr) : Except GoStr JobInfo :=
  match i.config.Cluster.find? (fun c => c.Name = clustername) with
  | some c =>
      if c.Address ≠ [] then getJob (c.Address ++ c.ProtocolVersion) jobid
      else .error ("Couldn't find clustername in config: ".toList ++ clustername)
  | none => .error ("Couldn't find clustername in config: ".toList ++ clustername)

/-- Method `Inception.GetJobInfo` (part_003:112-130): a jobid containing
`"@"` is split; exactly two fields route `fields[0]` to the cluster named
`fields[1]`; more fields log a malformed-identifier message and return
`nil`; no `"@"` routes to the cluster named `"default"`.  The Go `job, _ :=`
discards the error, returning `nil` (here `none`) on failure. -/
def GetJobInfo (i : Inception)
    (getJob : GoStr → GoStr → Except GoStr JobInfo)
    (jobid : GoStr) : Option JobInfo :=
  if '@' ∈ jobid then
    if (goSplit '@' jobid).length = 2 then
      (getJobFromCluster i getJob
        ((goSplit '@' jobid).getD 1 []) ((goSplit '@' jobid).getD 0 [])).toOption
    else none
  else
    (getJobFromCluster i getJob "default".toList jobid).toOption

/-- The per-cluster machine fetch of the `GetAllMachines` loop body:
address resolution followed by `GetMachines(address, "all")`; `none` when
the peer's fetch fails. -/
def machineFetch (i : Inception)
    (getMachines : GoStr → GoStr → Option (List Machine))
    (c : ClusterConfig) : Option (List Machine) :=
  match GetClusterAddress i.config c.Name with
  | .ok (address, _) => getMachines address "all".toList
  | .error _ => none

/-- The per-cluster queue fetch of the `GetAllQueues` loop body. -/
def queueFetch (i : Inception)
    (getQueues : GoStr → GoStr → Option (List Queue))
    (c : ClusterConfig) : Option (List Queue) :=
  match GetClusterAddress i.config c.Name with
  | .ok (address, _) => getQueues address "all".toList
  | .error _ => none

/-- The per-cluster category fetch of the `GetAllCategories` loop body. -/
def categoryFetch (i : Inception)
    (getJobCategories : GoStr → GoStr → GoStr → Option (List GoStr))
    (c : ClusterConfig) : Option (List GoStr) :=
  match GetClusterAddress i.config c.Name with
  | .ok (address, _) => getJobCategories address "ubercluster".toList "all".toList
  | .error _ => none

/-- The listen address of the failing instance for C8. -/
def listenAddress : GoStr := "http://localhost:8989".toList

/-- A configuration whose first cluster is configured at this instance's
own listen address. -/
def confWithSelf : Config :=
  ⟨[⟨"self".toList, listenAddress, "v1".toList⟩,
    ⟨"other".toList, "http://remote:8282".toList, "v1".toList⟩]⟩

/-- The first peer oracle of the C10 witness: answers `"all"` requests
with one job, any other state with a different job. -/
def jobsOracleA : GoStr → GoStr → GoStr → Option (List JobInfo) :=
  fun _ state _ =>
    if state = "all".toList then some [⟨"1".toList, "Running".toList⟩]
    else some [⟨"2".toList, "Queued".toList⟩]

/-- The second peer oracle of the C10 witness: agrees with the first on
`"all"` requests, fails every other request. -/
def jobsOracleB : GoStr → GoStr → GoStr → Option (List JobInfo) :=
  fun _ state _ =>
    if state = "all".toList then some [⟨"1".toList, "Running".toList⟩]
    else none

/-- The routing configuration of the C7 witness: a `"default"` cluster and
a `"clusterA"` cluster. -/
def confRouting : Config :=
  ⟨[⟨"default".toList, "http://localhost:8282/".toList, "v1".toList⟩,
    ⟨"clusterA".toList, "http://a:8282/".toList, "v1".toList⟩]⟩

/-- The remote `GetJob` oracle of the C7 witness: every request succeeds
and echoes the requested job id. -/
def getJobEcho : GoStr → GoStr → Except GoStr JobInfo :=
  fun _ jobid => .ok ⟨jobid, "Running".toList⟩

/-- Program locations of one `StartProcess` invocation around its
environment-overlay window (os.go:54-72). -/
inductive Loc where
  | start
  | snapshot
  | overlaid
  | started
  | restored
  | done
deriving DecidableEq, Repr

/-- The process-wide environment, abstracted to which invocation's overlay
keys are currently set: `(overlay of call 1 present, overlay of call 2
present)`.  `currentEnv`/`restoreEnv` (os.go:14-29) read and write this
single shared map. -/
abbrev Env := Bool × Bool

/-- The local state of one in-flight `StartProcess` invocation: its
program counter, its own function-local `var mtx sync.Mutex` (os.go:54),
the snapshot taken by `env := currentEnv()` (os.go:57), and the
environment captured by its child at `cmd.Start()` (os.go:63). -/
structure ThreadState where
  pc : Loc
  lock : Bool
  saved : Env
  child : Option Env
deriving DecidableEq, Repr

/-- The joint state of two concurrent `StartProcess` invocations and the
single process-wide environment they share. -/
structure TwoStartState where
  t1 : ThreadState
  t2 : ThreadState
  env : Env
deriving DecidableEq, Repr

/-- A fresh invocation: at the top of `StartProcess`, the local mutex
newly declared and free, nothing snapshotted, no child yet. -/
def initThread : ThreadState := ⟨.start, false, (false, false), none⟩

/-- Both invocations at their entry, base environment. -/
def initTwoStart : TwoStartState := ⟨initThread, initThread, (false, false)⟩

/-- Small-step semantics of two concurrent `StartProcess` invocations
(os.go:54-72).  Crucially, `lock1`/`lock2` acquire only that invocation's
OWN mutex — `var mtx sync.Mutex` is declared inside the function, so each
call gets a fresh, free mutex and never waits for the other call.
`overlayN` runs the `os.Setenv` loop over `t.JobEnvironment` (os.go:59-61)
against the shared environment, `startN` is `cmd.Start()` (os.go:63) whose
child inherits the current shared environment, `restoreN` is
`restoreEnv(env)` (os.go:71), `unlockN` is `mtx.Unlock()` (os.go:72). -/
inductive StartStep : TwoStartState → TwoStartState → Prop where
  | lock1 (s : TwoStartState) (h : s.t1.pc = .start) (hl : s.t1.lock = false) :
      StartStep s { s with
        t1 := { s.t1 with pc := .snapshot, lock := true, saved := s.env } }
  | overlay1 (s : TwoStartState) (h : s.t1.pc = .snapshot) :
      StartStep s { s with
        t1 := { s.t1 with pc := .overlaid }, env := (true, s.env.2) }
  | start1 (s : TwoStartState) (h : s.t1.pc = .overlaid) :
      StartStep s { s with
        t1 := { s.t1 with pc := .started, child := some s.env } }
  | restore1 (s : TwoStartState) (h : s.t1.pc = .started) :
      StartStep s { s with
        t1 := { s.t1 with pc := .restored }, env := s.t1.saved }
  | unlock1 (s : TwoStartState) (h : s.t1.pc = .restored) :
      StartStep s { s with
        t1 := { s.t1 with pc := .done, lock := false } }
  | lock2 (s : TwoStartState) (h : s.t2.pc = .start) (hl : s.t2.lock = false) :
      StartStep s { s with
        t2 := { s.t2 with pc := .snapshot, lock := true, saved := s.env } }
  | overlay2 (s : TwoStartState) (h : s.t2.pc = .snapshot) :
      StartStep s { s with
        t2 := { s.t2 with pc := .overlaid }, env := (s.env.1, true) }
  | start2 (s : TwoStartState) (h : s.t2.pc = .overlaid) :
      StartStep s { s with
        t2 := { s.t2 with pc := .started, child := some s.env } }
  | restore2 (s : TwoStartState) (h : s.t2.pc = .started) :
      StartStep s { s with
        t2 := { s.t2 with pc := .restored }, env := s.t2.saved }
  | unlock2 (s : TwoStartState) (h : s.t2.pc = .restored) :
      StartStep s { s with
        t2 := { s.t2 with pc := .done, lock := false } }

/-- An invocation is inside its overlay/restore window when its overlay
has been applied to the shared environment and not yet restored. -/
def inOverlayWindow (pc : Loc) : Prop :=
  pc = .overlaid ∨ pc = .started

/-! ## Lemmas and claim theorems -/

lemma set_replicate_zero (n i : ℕ) :
    (List.replicate n (0 : ℚ)).set i 0 = List.replicate n 0 := by
  induction n generalizing i with
  | zero => simp
  | succ m ih =>
      cases i with
      | zero => simp [List.replicate_succ]
      | succ j => simp [List.replicate_succ, ih]

lemma getClusterLoad_replicate_zero (n i : ℕ) (o : FetchOutcome) :
    getClusterLoad (List.replicate n 0) i o = List.replicate n 0 := by
  cases o with
  | httpError => rfl
  | httpOkDecodeErr => exact set_replicate_zero n i
  | httpOkDecodeOk v => rfl

lemma foldl_getClusterLoad_replicate_zero (outcomes : ℕ → FetchOutcome)
    (is : List ℕ) (n : ℕ) :
    is.foldl (fun load i => getClusterLoad load i (outcomes i))
      (List.replicate n 0) = List.replicate n 0 := by
  induction is with
  | nil => rfl
  | cons i rest ih =>
      simp only [List.foldl_cons, getClusterLoad_replicate_zero, ih]

lemma foldl_likelyhood_build (loads : List ℚ) (w : ℤ) (ws : List ℤ) :
    (loads.foldl (fun acc v =>
        match acc with
        | [] => [weightOfLoad v]
        | w :: ws => (w + weightOfLoad v) :: w :: ws) (w :: ws)).reverse =
      (w :: ws).reverse ++ cumsFrom loads w := by
  induction loads generalizing w ws with
  | nil => simp [cumsFrom]
  | cons v rest ih =>
      simp only [List.foldl_cons, cumsFrom, ih]
      simp

lemma likelyhoodList_eq_cumsFrom (loads : List ℚ) :
    likelyhoodList loads = cumsFrom loads 0 := by
  cases loads with
  | nil => rfl
  | cons v rest =>
      unfold likelyhoodList
      simp only [List.foldl_cons]
      rw [foldl_likelyhood_build rest (weightOfLoad v) []]
      simp [cumsFrom]

lemma cumsFrom_length (loads : List ℚ) (acc : ℤ) :
    (cumsFrom loads acc).length = loads.length := by
  induction loads generalizing acc with
  | nil => rfl
  | cons v rest ih => simp [cumsFrom, ih]

lemma cumsFrom_getD (loads : List ℚ) (acc : ℤ) (m : ℕ) (hm : m < loads.length) :
    (cumsFrom loads acc).getD m 0 =
      acc + ((loads.take (m + 1)).map weightOfLoad).sum := by
  induction loads generalizing acc m with
  | nil => simp at hm
  | cons v rest ih =>
      cases m with
      | zero => simp [cumsFrom]
      | succ m =>
          simp only [List.length_cons, Nat.succ_lt_succ_iff] at hm
          simp only [cumsFrom, List.getD_cons_succ, List.take_succ_cons,
            List.map_cons, List.sum_cons]
          rw [ih _ m hm]
          ring

lemma getLastD_eq_getD (l : List ℤ) (d : ℤ) (h : l ≠ []) :
    l.getLastD d = l.getD (l.length - 1) 0 := by
  induction l generalizing d with
  | nil => exact absurd rfl h
  | cons x rest ih =>
      cases rest with
      | nil => rfl
      | cons y t =>
          have hne : (y :: t) ≠ ([] : List ℤ) := by simp
          calc (x :: y :: t).getLastD d = (y :: t).getLastD x := rfl
            _ = (y :: t).getD ((y :: t).length - 1) 0 := ih x hne
            _ = (x :: y :: t).getD ((x :: y :: t).length - 1) 0 := by
                  simp [List.length_cons]

lemma firstExceedingFrom_spec (lk : List ℤ) (sel : ℤ) (k : ℕ)
    (h : ∃ i, i < lk.length ∧ sel < lk.getD i 0) :
    ∃ i, i < lk.length ∧ firstExceedingFrom lk sel k = ((k : ℤ) + i) ∧
      sel < lk.getD i 0 ∧ ∀ j, j < i → lk.getD j 0 ≤ sel := by
  induction lk generalizing k with
  | nil => simp at h
  | cons v rest ih =>
      by_cases hv : sel < v
      · refine ⟨0, by simp, ?_, by simpa using hv, by omega⟩
        simp [firstExceedingFrom, hv]
      · obtain ⟨i, hi, hsel⟩ := h
        cases i with
        | zero => simp at hsel; exact absurd hsel hv
        | succ i =>
            simp only [List.length_cons, Nat.succ_lt_succ_iff] at hi
            simp only [List.getD_cons_succ] at hsel
            obtain ⟨i0, hi0, heq, hex, hmin⟩ := ih (k + 1) ⟨i, hi, hsel⟩
            refine ⟨i0 + 1, by simpa using Nat.succ_lt_succ hi0, ?_, by simpa using hex, ?_⟩
            · simp only [firstExceedingFrom, hv, if_neg hv, heq]
              push_cast
              ring
            · intro j hj
              cases j with
              | zero => simpa using le_of_not_lt hv
              | succ j =>
                  simp only [List.getD_cons_succ]
                  exact hmin j (by omega)

lemma minLoadFrom_ge (load : List ℚ) (k : ℕ) (min : ℚ) (index : ℕ)
    (h : ∀ i, i < load.length → min ≤ load.getD i 0) :
    minLoadFrom load k min index = index := by
  induction load generalizing k with
  | nil => rfl
  | cons v rest ih =>
      have hv : min ≤ v := by simpa using h 0 (by simp)
      simp only [minLoadFrom, if_neg (not_lt.mpr hv)]
      exact ih (k + 1) (fun i hi => by
        simpa using h (i + 1) (by simpa using Nat.succ_lt_succ hi))

lemma minLoadFrom_lt (load : List ℚ) (k : ℕ) (min : ℚ) (index : ℕ)
    (h : ∃ i, i < load.length ∧ load.getD i 0 < min) :
    ∃ i, i < load.length ∧ minLoadFrom load k min index = k + i ∧
      load.getD i 0 < min ∧
      (∀ j, j < load.length → load.getD i 0 ≤ load.getD j 0) ∧
      (∀ j, j < i → load.getD i 0 < load.getD j 0) := by
  induction load generalizing k min index with
  | nil => simp at h
  | cons v rest ih =>
      by_cases hv : v < min
      · simp only [minLoadFrom, if_pos hv]
        by_cases hrest : ∃ i, i < rest.length ∧ rest.getD i 0 < v
        · obtain ⟨i0, hi0, heq, hlt, hle, hfirst⟩ := ih (k + 1) v k hrest
          refine ⟨i0 + 1, by simpa using Nat.succ_lt_succ hi0, by omega,
            lt_trans (by simpa using hlt) hv, ?_, ?_⟩
          · intro j hj
            cases j with
            | zero => simpa using le_of_lt (by simpa using hlt)
            | succ j =>
                simp only [List.getD_cons_succ]
                exact hle j (by simpa using hj)
          · intro j hj
            cases j with
            | zero => simpa using hlt
            | succ j =>
                simp only [List.getD_cons_succ]
                exact hfirst j (by omega)
        · push_neg at hrest
          refine ⟨0, by simp, ?_, by simpa using hv, ?_, by omega⟩
          · rw [minLoadFrom_ge rest (k + 1) v k (fun i hi => hrest i hi)]
            omega
          · intro j hj
            cases j with
            | zero => simp
            | succ j =>
                simp only [List.getD_cons_zero, List.getD_cons_succ]
                exact hrest j (by simpa using hj)
      · obtain ⟨i, hi, hlt⟩ := h
        cases i with
        | zero => exact absurd (by simpa using hlt) hv
        | succ i =>
            simp only [List.length_cons, Nat.succ_lt_succ_iff] at hi
            simp only [List.getD_cons_succ] at hlt
            obtain ⟨i0, hi0, heq, hlt0, hle, hfirst⟩ :=
              ih (k + 1) min index ⟨i, hi, hlt⟩
            have hminv : min ≤ v := le_of_not_lt hv
            refine ⟨i0 + 1, by simpa using Nat.succ_lt_succ hi0, ?_,
              by simpa using hlt0, ?_, ?_⟩
            · simp only [minLoadFrom, if_neg hv]
              omega

            · intro j hj
              cases j with
              | zero =>
                  simp only [List.getD_cons_zero, List.getD_cons_succ]
                  exact le_of_lt (lt_of_lt_of_le hlt0 hminv)
              | succ j =>
                  simp only [List.getD_cons_succ]
                  exact hle j (by simpa using hj)
            · intro j hj
              cases j with
              | zero =>
                  simp only [List.getD_cons_zero, List.getD_cons_succ]
                  exact lt_of_lt_of_le hlt0 hminv
              | succ j =>
                  simp only [List.getD_cons_succ]
                  exact hfirst j (by omega)

lemma except_bind_ok (x : ℤ) (f : ℤ → Except GoStr ℤ) :
    (Except.ok x >>= f) = f x := rfl

lemma except_bind_error (e : GoStr) (f : ℤ → Except GoStr ℤ) :
    ((Except.error e : Except GoStr ℤ) >>= f) = Except.error e := rfl

lemma probSel_nonpos (loads : List ℚ) (rng : ℤ → ℤ)
    (h : totalWeight loads ≤ 0) :
    probabilisticSelection loads rng = .ok (-1) := by
  rw [probabilisticSelection]
  by_cases h1 : loads.length ≤ 0
  · rw [if_pos h1]
  · rw [if_neg h1]
    rw [show (likelyhoodList loads).getLastD 0 = totalWeight loads from rfl]
    rw [if_pos h]

lemma probSel_pos (loads : List ℚ) (rng : ℤ → ℤ) (hne : loads ≠ [])
    (h : 0 < totalWeight loads) :
    probabilisticSelection loads rng =
      (int63n rng (totalWeight loads - 1) >>= fun selection =>
        Except.ok (firstExceedingFrom (likelyhoodList loads) selection 0)) := by
  have h1 : ¬ loads.length ≤ 0 := by
    have := List.length_pos.mpr hne
    omega
  rw [probabilisticSelection, if_neg h1]
  rw [show (likelyhoodList loads).getLastD 0 = totalWeight loads from rfl]
  rw [if_neg (by omega : ¬ totalWeight loads ≤ 0)]

lemma weightOfLoad_half : weightOfLoad ((1 : ℚ)/2) = 5000 := by
  rw [weightOfLoad, i64trunc, if_pos (by norm_num : (0:ℚ) ≤ (1 - 1/2) * 10000)]
  norm_num

lemma weightOfLoad_one : weightOfLoad (1 : ℚ) = 0 := by
  rw [weightOfLoad, i64trunc, if_pos (by norm_num : (0:ℚ) ≤ (1 - 1) * 10000)]
  norm_num

lemma weightOfLoad_99983 : weightOfLoad ((99983 : ℚ)/100000) = 1 := by
  rw [weightOfLoad, i64trunc,
    if_pos (by norm_num : (0:ℚ) ≤ (1 - 99983/100000) * 10000)]
  norm_num

lemma weightOfLoad_19997 : weightOfLoad ((19997 : ℚ)/20000) = 1 := by
  rw [weightOfLoad, i64trunc,
    if_pos (by norm_num : (0:ℚ) ≤ (1 - 19997/20000) * 10000)]
  norm_num

lemma likelyhoodList_99983 : likelyhoodList [(99983 : ℚ)/100000] = [1] := by
  rw [likelyhoodList_eq_cumsFrom]
  simp only [cumsFrom, weightOfLoad_99983]
  norm_num

lemma totalWeight_halfhalf : totalWeight [(1:ℚ)/2, 1/2] = 10000 := by
  rw [totalWeight, likelyhoodList_eq_cumsFrom]
  simp only [cumsFrom, weightOfLoad_half, List.getLastD]
  norm_num

lemma totalWeight_ones : totalWeight [(1:ℚ), 1, 1] = 0 := by
  rw [totalWeight, likelyhoodList_eq_cumsFrom]
  simp only [cumsFrom, weightOfLoad_one, List.getLastD]
  norm_num

lemma totalWeight_19997 : totalWeight [(19997 : ℚ)/20000] = 1 := by
  rw [totalWeight, likelyhoodList_eq_cumsFrom]
  simp only [cumsFrom, weightOfLoad_19997, List.getLastD]
  norm_num

/-- C1: the claim states that a cluster whose HTTP fetch succeeds and whose
body decodes as a float gets the decoded value stored in its load slot.
The code's decode check is inverted (`if err := decoder.Decode(&load); err != nil`
stores, while the `err == nil` branch only logs "Error during decoding"),
so a successfully decoded value is never stored and `getAllLoadValues`
always returns the zero vector.  At the failing input — one cluster whose
fetch succeeds and whose body decodes to load `1/2` — the slot holds `0`,
not `1/2`. -/
theorem getAllLoadValues_discards_decoded_value :
    (∀ (conf : Config) (outcomes : ℕ → FetchOutcome),
        getAllLoadValues conf outcomes = List.replicate conf.Cluster.length 0) ∧
    getAllLoadValues confC1 (fun _ => FetchOutcome.httpOkDecodeOk (1/2)) = [0] ∧
    ((1 : ℚ)/2 ≠ 0) := by
  refine ⟨fun conf outcomes => foldl_getClusterLoad_replicate_zero outcomes _ _,
    ?_, by norm_num⟩
  rw [getAllLoadValues, foldl_getClusterLoad_replicate_zero]
  rfl

/-- C2 counterexample: the claim says cluster `k`'s incremental weight is
`round((1 - load_k) * 10000)`.  At load `0.99983` the code's cumulative
array (built with Go `int64` conversion, i.e. truncation toward zero) holds
`int64(1.7) = 1`, while the claim's `round(1.7)` is `2`. -/
theorem likelyhood_weight_not_round :
    likelyhoodList [(99983 : ℚ)/100000] = [1] ∧
    specRoundWeight ((99983 : ℚ)/100000) = 2 ∧ (1 : ℤ) ≠ 2 :=
  ⟨likelyhoodList_99983, by rw [specRoundWeight]; norm_num [round_eq], by norm_num⟩

/-- C2 amended: `probabilisticSelection` builds the cumulative weight array
with incremental weights `int64((1 - load_k) * 10000)` — Go `int64`
conversion, i.e. truncation toward zero, not rounding — draws a uniform
random integer in the half-open interval `[0, totalWeight - 1)` (the code
calls `rand.Int63n(likelyhood[len-1] - 1)`), and returns the first index
whose cumulative weight strictly exceeds the draw. -/
theorem probabilisticSelection_trunc_weights (loads : List ℚ) (rng : ℤ → ℤ)
    (hrng : ValidRng rng) (htot : 2 ≤ totalWeight loads) :
    ∃ i, i < loads.length ∧
      probabilisticSelection loads rng = .ok (i : ℤ) ∧
      0 ≤ rng (totalWeight loads - 1) ∧
      rng (totalWeight loads - 1) < totalWeight loads - 1 ∧
      rng (totalWeight loads - 1) < (likelyhoodList loads).getD i 0 ∧
      (∀ j, j < i → (likelyhoodList loads).getD j 0 ≤ rng (totalWeight loads - 1)) ∧
      (∀ m, m < loads.length →
        (likelyhoodList loads).getD m 0 =
          ((loads.take (m + 1)).map weightOfLoad).sum) := by
  have hne : loads ≠ [] := by
    intro h
    rw [h] at htot
    simp [totalWeight, likelyhoodList] at htot
  have hlen : (likelyhoodList loads).length = loads.length := by
    rw [likelyhoodList_eq_cumsFrom]; exact cumsFrom_length _ _
  have hpos : 0 < loads.length := List.length_pos.mpr hne
  have hlknil : likelyhoodList loads ≠ [] := by
    intro h
    rw [h] at hlen
    simp at hlen
    omega
  have htotal : totalWeight loads =
      (likelyhoodList loads).getD ((likelyhoodList loads).length - 1) 0 :=
    getLastD_eq_getD _ _ hlknil
  have hd := hrng (totalWeight loads - 1) (by omega)
  set d := rng (totalWeight loads - 1) with hdef
  have hex : ∃ i, i < (likelyhoodList loads).length ∧
      d < (likelyhoodList loads).getD i 0 := by
    refine ⟨(likelyhoodList loads).length - 1, by omega, ?_⟩
    rw [← htotal]
    omega
  obtain ⟨i, hi, heq, hgt, hle⟩ := firstExceedingFrom_spec _ d 0 hex
  refine ⟨i, by omega, ?_, hd.1, hd.2, hgt, hle, ?_⟩
  · rw [probSel_pos loads rng hne (by omega)]
    rw [int63n, if_neg (by omega : ¬ totalWeight loads - 1 ≤ 0)]
    rw [except_bind_ok, ← hdef, heq]
    norm_num
  · intro m hm
    rw [likelyhoodList_eq_cumsFrom, cumsFrom_getD _ _ m hm, zero_add]

/-- C2 witness: at loads `[1/2, 1/2]` with the valid draw oracle
`fun n => n - 1`, the amended characterization is realized (the cumulative
array is `[5000, 10000]`, the draw is `9998`, the selection index is `1`). -/
theorem probabilisticSelection_trunc_weights_witness :
    ∃ i, i < ([(1:ℚ)/2, 1/2]).length ∧
      probabilisticSelection [(1:ℚ)/2, 1/2] (fun n => n - 1) = .ok (i : ℤ) ∧
      0 ≤ (fun n : ℤ => n - 1) (totalWeight [(1:ℚ)/2, 1/2] - 1) ∧
      (fun n : ℤ => n - 1) (totalWeight [(1:ℚ)/2, 1/2] - 1) <
        totalWeight [(1:ℚ)/2, 1/2] - 1 ∧
      (fun n : ℤ => n - 1) (totalWeight [(1:ℚ)/2, 1/2] - 1) <
        (likelyhoodList [(1:ℚ)/2, 1/2]).getD i 0 ∧
      (∀ j, j < i →
        (likelyhoodList [(1:ℚ)/2, 1/2]).getD j 0 ≤
          (fun n : ℤ => n - 1) (totalWeight [(1:ℚ)/2, 1/2] - 1)) ∧
      (∀ m, m < ([(1:ℚ)/2, 1/2]).length →
        (likelyhoodList [(1:ℚ)/2, 1/2]).getD m 0 =
          (([(1:ℚ)/2, 1/2].take (m + 1)).map weightOfLoad).sum) :=
  probabilisticSelection_trunc_weights [(1:ℚ)/2, 1/2] (fun n => n - 1)
    (fun n hn => ⟨by show (0:ℤ) ≤ n - 1; omega, by show n - 1 < n; omega⟩)
    (by rw [totalWeight_halfhalf]; norm_num)

/-- C3 counterexample: the load vector `[0.99985]` has its single entry in
`[0, 1]` and a positive total computed weight (exactly `1`), yet the
selection does not complete: the code reaches
`rand.Int63n(likelyhood[0] - 1)`, i.e. `rand.Int63n(0)`, which panics. -/
theorem probabilisticSelection_panics_on_total_one :
    (0 : ℚ) ≤ 19997/20000 ∧ (19997/20000 : ℚ) ≤ 1 ∧
    0 < totalWeight [(19997 : ℚ)/20000] ∧
    probabilisticSelection [(19997 : ℚ)/20000] (fun _ => 0) =
      .error "invalid argument to Int63n".toList := by
  refine ⟨by norm_num, by norm_num, by rw [totalWeight_19997]; norm_num, ?_⟩
  rw [probSel_pos [(19997 : ℚ)/20000] (fun _ => 0) (by simp)
    (by rw [totalWeight_19997]; norm_num)]
  rw [totalWeight_19997]
  rw [int63n, if_pos (by norm_num : (1:ℤ) - 1 ≤ 0)]
  rw [except_bind_error]

/-- C3 amended: whenever the total computed weight is `<= 0` (in particular
over `[1,1,1]`), `probabilisticSelection` returns the no-selection value
`-1` and `ProbSched.SelectCluster` falls back to the name `"default"`; the
selection completes without panic for every total weight `>= 2`; but for a
non-empty load vector whose total weight is exactly `1` the code panics,
because it calls `rand.Int63n(0)`. -/
theorem probabilisticSelection_fallback_and_panic :
    (∀ (conf : Config) (loads : List ℚ) (rng : ℤ → ℤ),
        totalWeight loads ≤ 0 →
        probabilisticSelection loads rng = .ok (-1) ∧
        probSchedSelect conf loads rng = .ok "default".toList) ∧
    (∀ (loads : List ℚ) (rng : ℤ → ℤ), 2 ≤ totalWeight loads →
        ∃ k : ℤ, probabilisticSelection loads rng = .ok k) ∧
    (∀ (loads : List ℚ) (rng : ℤ → ℤ), loads ≠ [] → totalWeight loads = 1 →
        probabilisticSelection loads rng =
          .error "invalid argument to Int63n".toList) := by
  refine ⟨fun conf loads rng htot => ⟨probSel_nonpos loads rng htot, ?_⟩, ?_, ?_⟩
  · rw [probSchedSelect, probSel_nonpos loads rng htot]
    norm_num
  · intro loads rng htot
    have hne : loads ≠ [] := by
      intro h
      rw [h] at htot
      simp [totalWeight, likelyhoodList] at htot
    rw [probSel_pos loads rng hne (by omega)]
    rw [int63n, if_neg (by omega : ¬ totalWeight loads - 1 ≤ 0)]
    rw [except_bind_ok]
    exact ⟨_, rfl⟩
  · intro loads rng hne htot
    rw [probSel_pos loads rng hne (by omega)]
    rw [htot]
    rw [int63n, if_pos (by norm_num : (1:ℤ) - 1 ≤ 0)]
    rw [except_bind_error]

/-- C3 witness: over `[1,1,1]` the code returns `-1` and the selector falls
back to `"default"`; over `[1/2, 1/2]` (total weight `10000`) the selection
completes; over `[0.99985]` (total weight `1`) it panics. -/
theorem probabilisticSelection_fallback_and_panic_witness :
    probabilisticSelection [(1:ℚ), 1, 1] (fun _ => 0) = .ok (-1) ∧
    probSchedSelect confABC [(1:ℚ), 1, 1] (fun _ => 0) = .ok "default".toList ∧
    (∃ k : ℤ, probabilisticSelection [(1:ℚ)/2, 1/2] (fun n => n - 1) = .ok k) ∧
    probabilisticSelection [(19997 : ℚ)/20000] (fun n => n - 1) =
      .error "invalid argument to Int63n".toList :=
  ⟨(probabilisticSelection_fallback_and_panic.1 confABC [(1:ℚ), 1, 1]
      (fun _ => 0) (by rw [totalWeight_ones])).1,
   (probabilisticSelection_fallback_and_panic.1 confABC [(1:ℚ), 1, 1]
      (fun _ => 0) (by rw [totalWeight_ones])).2,
   probabilisticSelection_fallback_and_panic.2.1 [(1:ℚ)/2, 1/2]
      (fun n => n - 1) (by rw [totalWeight_halfhalf]; norm_num),
   probabilisticSelection_fallback_and_panic.2.2 [(19997 : ℚ)/20000]
      (fun n => n - 1) (by simp) totalWeight_19997⟩

/-- C4: `minLoad` returns the smallest index attaining the minimum load —
the loop only updates on strict improvement (`v < min`), so ties keep the
earlier index — and `LoadBasedSched.SelectCluster` returns the name of the
configured cluster at that index.  Loads are finite `float64` values, hence
bounded by `math.MaxFloat64`, the loop's initial minimum. -/
theorem minLoad_first_min (conf : Config) (loads : List ℚ)
    (hne : loads ≠ [])
    (hbound : ∀ i, i < loads.length → loads.getD i 0 ≤ maxFloat64)
    (hlen : loads.length = conf.Cluster.length) :
    minLoad loads < loads.length ∧
    (∀ j, j < loads.length → loads.getD (minLoad loads) 0 ≤ loads.getD j 0) ∧
    (∀ j, j < minLoad loads → loads.getD (minLoad loads) 0 < loads.getD j 0) ∧
    ∃ c, conf.Cluster.get? (minLoad loads) = some c ∧
      loadBasedSelect conf loads = some c.Name := by
  have hpos : 0 < loads.length := List.length_pos.mpr hne
  have hmain : minLoad loads < loads.length ∧
      (∀ j, j < loads.length → loads.getD (minLoad loads) 0 ≤ loads.getD j 0) ∧
      (∀ j, j < minLoad loads → loads.getD (minLoad loads) 0 < loads.getD j 0) := by
    by_cases hlt : ∃ i, i < loads.length ∧ loads.getD i 0 < maxFloat64
    · obtain ⟨i, hi, heq, _, hle, hfirst⟩ := minLoadFrom_lt loads 0 maxFloat64 0 hlt
      have hmin : minLoad loads = i := by rw [minLoad, heq]; omega
      rw [hmin]
      exact ⟨hi, hle, hfirst⟩
    · push_neg at hlt
      have hzero : minLoad loads = 0 :=
        minLoadFrom_ge loads 0 maxFloat64 0 hlt
      rw [hzero]
      refine ⟨hpos, ?_, by omega⟩
      intro j hj
      exact le_trans (hbound 0 hpos) (hlt j hj)
  obtain ⟨h1, h2, h3⟩ := hmain
  have hidx : minLoad loads < conf.Cluster.length := by omega
  have hsome : conf.Cluster.get? (minLoad loads) =
      some (conf.Cluster.get ⟨minLoad loads, hidx⟩) :=
    List.get?_eq_some.mpr ⟨hidx, rfl⟩
  refine ⟨h1, h2, h3, conf.Cluster.get ⟨minLoad loads, hidx⟩, hsome, ?_⟩
  rw [loadBasedSelect, hsome]
  rfl

/-- C4 witness: over loads `[0.9, 0.1, 0.5]` the selected index is `1` and
the load-based selector returns the name of the configured cluster `b` at
index `1`. -/
theorem minLoad_first_min_witness :
    minLoad [(9:ℚ)/10, 1/10, 1/2] = 1 ∧
    (∃ c, confABC.Cluster.get? (minLoad [(9:ℚ)/10, 1/10, 1/2]) = some c ∧
      loadBasedSelect confABC [(9:ℚ)/10, 1/10, 1/2] = some c.Name) := by
  constructor
  · rw [minLoad, minLoadFrom,
      if_pos (by rw [maxFloat64]; norm_num : (9:ℚ)/10 < maxFloat64),
      minLoadFrom, if_pos (by norm_num : (1:ℚ)/10 < 9/10),
      minLoadFrom, if_neg (by norm_num : ¬ (1:ℚ)/2 < 1/10),
      minLoadFrom]
  · exact (minLoad_first_min confABC [(9:ℚ)/10, 1/10, 1/2] (by simp)
      (by intro i hi
          have hi3 : i < 3 := by simpa using hi
          interval_cases i <;>
            simp only [List.getD_cons_zero, List.getD_cons_succ] <;>
            rw [maxFloat64] <;> norm_num)
      (by rfl)).2.2.2

lemma getClusterAddress_of_mem (conf : Config) (c : ClusterConfig)
    (hc : c ∈ conf.Cluster) :
    ∃ p : GoStr × GoStr, GetClusterAddress conf c.Name = .ok p := by
  have hex : ∃ x ∈ conf.Cluster, (decide (x.Name = c.Name) : Bool) := ⟨c, hc, by simp⟩
  have hs : (conf.Cluster.find? (fun x => x.Name = c.Name)).isSome :=
    List.find?_isSome.mpr hex
  obtain ⟨c0, hc0⟩ := Option.isSome_iff_exists.mp hs
  refine ⟨(c0.Address, c0.ProtocolVersion), ?_⟩
  rw [GetClusterAddress, hc0]

lemma requestJobInfos_foldl (getJobs : GoStr → GoStr → GoStr → Option (List JobInfo))
    (l : List ClusterConfig) (acc : List JobInfo) :
    l.foldl (fun jobinfos c =>
        requestJobInfos getJobs jobinfos "all".toList (c.Address ++ "/v1".toList)) acc =
      acc ++ (l.filterMap
        (fun c => getJobs (c.Address ++ "/v1".toList) "all".toList [])).flatten := by
  induction l generalizing acc with
  | nil => simp
  | cons c rest ih =>
      simp only [List.foldl_cons, List.filterMap_cons]
      rw [requestJobInfos]
      cases hg : getJobs (c.Address ++ "/v1".toList) "all".toList [] with
      | none => rw [ih]
      | some jis =>
          rw [ih]
          simp

lemma getAllMachinesLoop_ok (i : Inception)
    (getMachines : GoStr → GoStr → Option (List Machine))
    (l : List ClusterConfig) (acc : List Machine)
    (hl : ∀ c ∈ l, c ∈ i.config.Cluster) :
    getAllMachinesLoop i getMachines l acc =
      .ok (acc ++ ((l.filter (fun c => !(decide (isOwnAddress i c)))).filterMap
        (machineFetch i getMachines)).flatten) := by
  induction l generalizing acc with
  | nil => simp [getAllMachinesLoop]
  | cons c rest ih =>
      have hc : c ∈ i.config.Cluster := hl c (List.mem_cons_self c rest)
      have hrest : ∀ x ∈ rest, x ∈ i.config.Cluster :=
        fun x hx => hl x (List.mem_cons_of_mem c hx)
      by_cases hown : isOwnAddress i c
      · rw [show getAllMachinesLoop i getMachines (c :: rest) acc =
            getAllMachinesLoop i getMachines rest acc from by
              rw [getAllMachinesLoop, if_pos hown]]
        rw [ih acc hrest]
        simp [List.filter_cons, hown]
      · obtain ⟨⟨a, v⟩, ha⟩ := getClusterAddress_of_mem i.config c hc
        have hfetch : machineFetch i getMachines c = getMachines a "all".toList := by
          rw [machineFetch, ha]
        cases hgm : getMachines a "all".toList with
        | none =>
            have hfnone : machineFetch i getMachines c = none := hfetch.trans hgm
            simp only [getAllMachinesLoop, if_neg hown, ha, hgm]
            rw [ih acc hrest]
            simp [List.filter_cons, List.filterMap_cons, hown, hfnone]
        | some ms =>
            have hfsome : machineFetch i getMachines c = some ms := hfetch.trans hgm
            simp only [getAllMachinesLoop, if_neg hown, ha, hgm]
            rw [ih (acc ++ ms) hrest]
            simp [List.filter_cons, List.filterMap_cons, hown, hfsome]

lemma getAllQueuesLoop_ok (i : Inception)
    (getQueues : GoStr → GoStr → Option (List Queue))
    (l : List ClusterConfig) (acc : List Queue)
    (hl : ∀ c ∈ l, c ∈ i.config.Cluster) :
    getAllQueuesLoop i getQueues l acc =
      .ok (acc ++ ((l.filter (fun c => !(decide (isOwnAddress i c)))).filterMap
        (queueFetch i getQueues)).flatten) := by
  induction l generalizing acc with
  | nil => simp [getAllQueuesLoop]
  | cons c rest ih =>
      have hc : c ∈ i.config.Cluster := hl c (List.mem_cons_self c rest)
      have hrest : ∀ x ∈ rest, x ∈ i.config.Cluster :=
        fun x hx => hl x (List.mem_cons_of_mem c hx)
      by_cases hown : isOwnAddress i c
      · rw [show getAllQueuesLoop i getQueues (c :: rest) acc =
            getAllQueuesLoop i getQueues rest acc from by
              rw [getAllQueuesLoop, if_pos hown]]
        rw [ih acc hrest]
        simp [List.filter_cons, hown]
      · obtain ⟨⟨a, v⟩, ha⟩ := getClusterAddress_of_mem i.config c hc
        have hfetch : queueFetch i getQueues c = getQueues a "all".toList := by
          rw [queueFetch, ha]
        cases hgq : getQueues a "all".toList with
        | none =>
            have hfnone : queueFetch i getQueues c = none := hfetch.trans hgq
            simp only [getAllQueuesLoop, if_neg hown, ha, hgq]
            rw [ih acc hrest]
            simp [List.filter_cons, List.filterMap_cons, hown, hfnone]
        | some qs =>
            have hfsome : queueFetch i getQueues c = some qs := hfetch.trans hgq
            simp only [getAllQueuesLoop, if_neg hown, ha, hgq]
            rw [ih (acc ++ qs) hrest]
            simp [List.filter_cons, List.filterMap_cons, hown, hfsome]

lemma getAllCategoriesLoop_ok (i : Inception)
    (getJobCategories : GoStr → GoStr → GoStr → Option (List GoStr))
    (l : List ClusterConfig) (acc : List GoStr)
    (hl : ∀ c ∈ l, c ∈ i.config.Cluster) :
    getAllCategoriesLoop i getJobCategories l acc =
      .ok (acc ++ ((l.filter (fun c => !(decide (isOwnAddress i c)))).filterMap
        (categoryFetch i getJobCategories)).flatten) := by
  induction l generalizing acc with
  | nil => simp [getAllCategoriesLoop]
  | cons c rest ih =>
      have hc : c ∈ i.config.Cluster := hl c (List.mem_cons_self c rest)
      have hrest : ∀ x ∈ rest, x ∈ i.config.Cluster :=
        fun x hx => hl x (List.mem_cons_of_mem c hx)
      by_cases hown : isOwnAddress i c
      · rw [show getAllCategoriesLoop i getJobCategories (c :: rest) acc =
            getAllCategoriesLoop i getJobCategories rest acc from by
              rw [getAllCategoriesLoop, if_pos hown]]
        rw [ih acc hrest]
        simp [List.filter_cons, hown]
      · obtain ⟨⟨a, v⟩, ha⟩ := getClusterAddress_of_mem i.config c hc
        have hfetch : categoryFetch i getJobCategories c =
            getJobCategories a "ubercluster".toList "all".toList := by
          rw [categoryFetch, ha]
        cases hgc : getJobCategories a "ubercluster".toList "all".toList with
        | none =>
            have hfnone : categoryFetch i getJobCategories c = none := hfetch.trans hgc
            simp only [getAllCategoriesLoop, if_neg hown, ha, hgc]
            rw [ih acc hrest]
            simp [List.filter_cons, List.filterMap_cons, hown, hfnone]
        | some cs =>
            have hfsome : categoryFetch i getJobCategories c = some cs := hfetch.trans hgc
            simp only [getAllCategoriesLoop, if_neg hown, ha, hgc]
            rw [ih (acc ++ cs) hrest]
            simp [List.filter_cons, List.filterMap_cons, hown, hfsome]

/-- C5: every aggregate read completes normally and returns exactly the
concatenation (in configuration order) of the successful peers' partial
results; a failed peer fetch (`none`) is excluded and never escalated.
The address-resolution panic path of the machine/queue/category loops is
unreachable because every iterated cluster name is configured. -/
theorem aggregate_reads_exclude_failed_peers :
    (∀ (i : Inception) (getJobs : GoStr → GoStr → GoStr → Option (List JobInfo))
        (filtered : Bool) (filter : JobInfo),
        GetJobInfosByFilter i getJobs filtered filter =
          ((requestedClusters i).filterMap
            (fun c => getJobs (c.Address ++ "/v1".toList) "all".toList [])).flatten) ∧
    (∀ (i : Inception) (getMachines : GoStr → GoStr → Option (List Machine))
        (machines : List GoStr),
        GetAllMachines i getMachines machines =
          .ok (((requestedClusters i).filterMap (machineFetch i getMachines)).flatten)) ∧
    (∀ (i : Inception) (getQueues : GoStr → GoStr → Option (List Queue))
        (queues : List GoStr),
        GetAllQueues i getQueues queues =
          .ok (((requestedClusters i).filterMap (queueFetch i getQueues)).flatten)) ∧
    (∀ (i : Inception) (getJobCategories : GoStr → GoStr → GoStr → Option (List GoStr)),
        GetAllCategories i getJobCategories =
          .ok (((requestedClusters i).filterMap (categoryFetch i getJobCategories)).flatten)) := by
  refine ⟨?_, ?_, ?_, ?_⟩
  · intro i getJobs filtered filter
    rw [GetJobInfosByFilter, requestJobInfos_foldl]
    rfl
  · intro i getMachines machines
    rw [GetAllMachines, getAllMachinesLoop_ok i getMachines i.config.Cluster []
      (fun c hc => hc)]
    rfl
  · intro i getQueues queues
    rw [GetAllQueues, getAllQueuesLoop_ok i getQueues i.config.Cluster []
      (fun c hc => hc)]
    rfl
  · intro i getJobCategories
    rw [GetAllCategories, getAllCategoriesLoop_ok i getJobCategories i.config.Cluster []
      (fun c hc => hc)]
    rfl

/-- C6 counterexample: `Inception.RunJob` at a concrete job template
returns the empty job identifier together with a `nil` error — a
zero-value success — and so does `JobOperation`; the claim that every
fallible operation returns either a non-empty result or a non-nil error is
false on the aggregator. -/
theorem runJob_zero_value_nil_error :
    RunJob (NewInception [] [] [] confABC)
      ⟨"sleep".toList, ["60".toList]⟩ = ([], none) ∧
    JobOperation (NewInception [] [] [] confABC)
      "ubercluster".toList "suspend".toList "42".toList = ([], none) ∧
    ([] : GoStr).length = 0 :=
  ⟨rfl, rfl, rfl⟩

/-- C6 amended: `Inception.RunJob` and `Inception.JobOperation` are
unimplemented stubs: for every input they return the zero-value empty
string together with a `nil` error, i.e. a silent zero-value success in
violation of the spec's error contract. -/
theorem runJob_jobOperation_always_zero_value :
    (∀ (i : Inception) (template : JobTemplate),
        (RunJob i template).1 = [] ∧ (RunJob i template).2 = none) ∧
    (∀ (i : Inception) (jobsessionname operation jobid : GoStr),
        (JobOperation i jobsessionname operation jobid).1 = [] ∧
        (JobOperation i jobsessionname operation jobid).2 = none) :=
  ⟨fun _ _ => ⟨rfl, rfl⟩, fun _ _ _ _ => ⟨rfl, rfl⟩⟩

/-- C8: the claim says the fan-out skips any cluster whose configured
address equals the instance's own listen address and requests each other
cluster once.  In the code, `NewInception` never assigns
`inceptionAddress`, so the guard compares `c.Address + "/"` against the
zero value `""` and never fires: the cluster configured at the instance's
own listen address is requested like any other — every configured cluster
(self included) receives exactly one request. -/
theorem inception_self_guard_never_fires :
    (∀ (certFile keyFile otp : GoStr) (config : Config),
        (NewInception certFile keyFile otp config).inceptionAddress = []) ∧
    (confWithSelf.Cluster.getD 0 ⟨[], [], []⟩).Address = listenAddress ∧
    requestedClusters (NewInception [] [] [] confWithSelf) = confWithSelf.Cluster ∧
    jobInfoRequests (NewInception [] [] [] confWithSelf) =
      [listenAddress ++ "/v1".toList,
       "http://remote:8282".toList ++ "/v1".toList] := by
  refine ⟨fun _ _ _ _ => rfl, rfl, ?_, ?_⟩ <;> rfl

/-- C10: `GetJobInfosByFilter` ignores both of its arguments.  First
conjunct: over one configuration and peer behaviour, any two argument
pairs produce the same merged result.  Second conjunct: the result only
depends on the peers' answers to requests with job state `"all"` and the
empty user — two peer oracles that agree on every `(address, "all", "")`
request are indistinguishable, so no caller-supplied filter is ever
forwarded. -/
theorem getJobInfosByFilter_ignores_arguments :
    (∀ (i : Inception) (getJobs : GoStr → GoStr → GoStr → Option (List JobInfo))
        (filtered1 : Bool) (filter1 : JobInfo) (filtered2 : Bool) (filter2 : JobInfo),
        GetJobInfosByFilter i getJobs filtered1 filter1 =
          GetJobInfosByFilter i getJobs filtered2 filter2) ∧
    (∀ (i : Inception)
        (getJobs getJobs2 : GoStr → GoStr → GoStr → Option (List JobInfo))
        (filtered : Bool) (filter : JobInfo),
        (∀ address user, getJobs address "all".toList user =
          getJobs2 address "all".toList user) →
        GetJobInfosByFilter i getJobs filtered filter =
          GetJobInfosByFilter i getJobs2 filtered filter) := by
  constructor
  · intro i getJobs filtered1 filter1 filtered2 filter2
    rfl
  · intro i getJobs getJobs2 filtered filter hagree
    rw [GetJobInfosByFilter, GetJobInfosByFilter,
      requestJobInfos_foldl, requestJobInfos_foldl]
    congr 1
    congr 1
    apply List.filterMap_congr
    intro c _
    exact hagree (c.Address ++ "/v1".toList) []

/-- C10 witness: over the three-cluster configuration, two different
argument pairs against two peer oracles that differ everywhere except on
`(_, "all", _)` requests still produce identical merged results. -/
theorem getJobInfosByFilter_ignores_arguments_witness :
    GetJobInfosByFilter (NewInception [] [] [] confABC) jobsOracleA
        true ⟨"42".toList, "Running".toList⟩ =
      GetJobInfosByFilter (NewInception [] [] [] confABC) jobsOracleB
        false ⟨"7".toList, "Queued".toList⟩ := by
  have h2 := getJobInfosByFilter_ignores_arguments.2
    (NewInception [] [] [] confABC) jobsOracleA jobsOracleB
    true ⟨"42".toList, "Running".toList⟩
    (fun address user => by simp [jobsOracleA, jobsOracleB])
  have h1 := getJobInfosByFilter_ignores_arguments.1
    (NewInception [] [] [] confABC) jobsOracleB
    true ⟨"42".toList, "Running".toList⟩
    false ⟨"7".toList, "Queued".toList⟩
  exact h2.trans h1

lemma goSplit_ne_nil (sep : Char) (s : GoStr) : goSplit sep s ≠ [] := by
  cases s with
  | nil => simp [goSplit]
  | cons c rest =>
      rw [goSplit]
      by_cases h : c = sep
      · simp [h]
      · rw [if_neg h]
        cases goSplit sep rest with
        | nil => simp
        | cons s ss => simp

lemma goSplit_no_sep (sep : Char) (s : GoStr) (h : sep ∉ s) :
    goSplit sep s = [s] := by
  induction s with
  | nil => rfl
  | cons c rest ih =>
      have hc : ¬ c = sep := fun hc => h (hc ▸ List.mem_cons_self c rest)
      have hrest : sep ∉ rest := fun hm => h (List.mem_cons_of_mem c hm)
      rw [goSplit, if_neg hc, ih hrest]

lemma goSplit_append (sep : Char) (s1 s2 : GoStr) (h : sep ∉ s1) :
    goSplit sep (s1 ++ sep :: s2) = s1 :: goSplit sep s2 := by
  induction s1 with
  | nil => simp [goSplit]
  | cons c rest ih =>
      have hc : ¬ c = sep := fun hc => h (hc ▸ List.mem_cons_self c rest)
      have hrest : sep ∉ rest := fun hm => h (List.mem_cons_of_mem c hm)
      rw [List.cons_append, goSplit, if_neg hc, ih hrest]

lemma goSplit_length (sep : Char) (s : GoStr) :
    (goSplit sep s).length = s.count sep + 1 := by
  induction s with
  | nil => simp [goSplit]
  | cons c rest ih =>
      rw [goSplit]
      by_cases h : c = sep
      · subst h
        rw [if_pos rfl, List.length_cons, ih, List.count_cons_self]
      · rw [if_neg h]
        have hne := goSplit_ne_nil sep rest
        cases hg : goSplit sep rest with
        | nil => exact absurd hg hne
        | cons s ss =>
            have : (s :: ss).length = rest.count sep + 1 := by rw [← hg, ih]
            simp only [List.length_cons] at this ⊢
            rw [List.count_cons_of_ne (Ne.symm h)]
            omega

/-- C7: job identifier routing of `Inception.GetJobInfo`.  An identifier
with exactly one `'@'` (the form `id@cluster`) is routed as job `id` to
the cluster named by the suffix; an identifier without `'@'` is routed to
the cluster named `"default"`; an identifier with two or more `'@'`
(e.g. `"42@a@b"`) fails — the code logs the malformed-identifier message
and returns `nil`. -/
theorem getJobInfo_routing (i : Inception)
    (getJob : GoStr → GoStr → Except GoStr JobInfo) :
    (∀ id cluster : GoStr, '@' ∉ id → '@' ∉ cluster →
      GetJobInfo i getJob (id ++ '@' :: cluster) =
        (getJobFromCluster i getJob cluster id).toOption) ∧
    (∀ jobid : GoStr, '@' ∉ jobid →
      GetJobInfo i getJob jobid =
        (getJobFromCluster i getJob "default".toList jobid).toOption) ∧
    (∀ jobid : GoStr, 2 ≤ jobid.count '@' →
      GetJobInfo i getJob jobid = none) := by
  refine ⟨?_, ?_, ?_⟩
  · intro id cluster hid hcl
    have hmem : '@' ∈ id ++ '@' :: cluster := by simp
    have hsplit : goSplit '@' (id ++ '@' :: cluster) = [id, cluster] := by
      rw [goSplit_append '@' id cluster hid, goSplit_no_sep '@' cluster hcl]
    rw [GetJobInfo, if_pos hmem, hsplit]
    rw [if_pos (by simp : ([id, cluster] : List GoStr).length = 2)]
    rfl
  · intro jobid hmem
    rw [GetJobInfo, if_neg hmem]
  · intro jobid hcount
    have hmem : '@' ∈ jobid := by
      have : 0 < jobid.count '@' := by omega
      exact List.count_pos_iff.mp this
    have hlen : (goSplit '@' jobid).length ≠ 2 := by
      rw [goSplit_length]
      omega
    rw [GetJobInfo, if_pos hmem, if_neg hlen]

/-- C7 witness: `"42@clusterA"` is routed as job `"42"` to `clusterA`,
`"42"` is routed to the `"default"` cluster, and `"42@a@b"` returns the
failure value `nil`. -/
theorem getJobInfo_routing_witness :
    GetJobInfo (NewInception [] [] [] confRouting) getJobEcho "42@clusterA".toList =
      (getJobFromCluster (NewInception [] [] [] confRouting) getJobEcho
        "clusterA".toList "42".toList).toOption ∧
    GetJobInfo (NewInception [] [] [] confRouting) getJobEcho "42".toList =
      (getJobFromCluster (NewInception [] [] [] confRouting) getJobEcho
        "default".toList "42".toList).toOption ∧
    GetJobInfo (NewInception [] [] [] confRouting) getJobEcho "42@a@b".toList = none :=
  ⟨(getJobInfo_routing (NewInception [] [] [] confRouting) getJobEcho).1
      "42".toList "clusterA".toList (by decide) (by decide),
   (getJobInfo_routing (NewInception [] [] [] confRouting) getJobEcho).2.1
      "42".toList (by decide),
   (getJobInfo_routing (NewInception [] [] [] confRouting) getJobEcho).2.2
      "42@a@b".toList (by decide)⟩

/-- C9: the claim says a single process-wide mutual-exclusion region keeps
at most one `StartProcess` invocation inside its overlay/restore window at
any time, so no job inherits another job's environment overlay.  Because
`var mtx sync.Mutex` is local to each call, a state is reachable in which
BOTH invocations are inside their windows simultaneously and the child of
call 1 has captured an environment carrying call 2's overlay. -/
theorem startProcess_overlay_window_not_exclusive :
    ∃ s : TwoStartState,
      Relation.ReflTransGen StartStep initTwoStart s ∧
      inOverlayWindow s.t1.pc ∧ inOverlayWindow s.t2.pc ∧
      s.t1.child = some (true, true) := by
  refine ⟨⟨⟨.started, true, (false, false), some (true, true)⟩,
          ⟨.overlaid, true, (true, false), none⟩, (true, true)⟩,
    ?_, Or.inr rfl, Or.inl rfl, rfl⟩
  have h1 : StartStep initTwoStart
      ⟨⟨.snapshot, true, (false, false), none⟩, initThread, (false, false)⟩ :=
    StartStep.lock1 initTwoStart rfl rfl
  have h2 : StartStep
      ⟨⟨.snapshot, true, (false, false), none⟩, initThread, (false, false)⟩
      ⟨⟨.overlaid, true, (false, false), none⟩, initThread, (true, false)⟩ :=
    StartStep.overlay1 _ rfl
  have h3 : StartStep
      ⟨⟨.overlaid, true, (false, false), none⟩, initThread, (true, false)⟩
      ⟨⟨.overlaid, true, (false, false), none⟩,
       ⟨.snapshot, true, (true, false), none⟩, (true, false)⟩ :=
    StartStep.lock2 _ rfl rfl
  have h4 : StartStep
      ⟨⟨.overlaid, true, (false, false), none⟩,
       ⟨.snapshot, true, (true, false), none⟩, (true, false)⟩
      ⟨⟨.overlaid, true, (false, false), none⟩,
       ⟨.overlaid, true, (true, false), none⟩, (true, true)⟩ :=
    StartStep.overlay2 _ rfl
  have h5 : StartStep
      ⟨⟨.overlaid, true, (false, false), none⟩,
       ⟨.overlaid, true, (true, false), none⟩, (true, true)⟩
      ⟨⟨.started, true, (false, false), some (true, true)⟩,
       ⟨.overlaid, true, (true, false), none⟩, (true, true)⟩ :=
    StartStep.start1 _ rfl
  exact Relation.ReflTransGen.tail
    (Relation.ReflTransGen.tail
      (Relation.ReflTransGen.tail
        (Relation.ReflTransGen.tail
          (Relation.ReflTransGen.tail Relation.ReflTransGen.refl h1) h2) h3) h4) h5

end ClusterStatus
